import Mathlib

/-!
# Verification of the chunked Excel extraction and hierarchical upsert core

Shallow embedding of the core operations of the adaptor repository:

* the SFTP Excel chunk extractor (`getExcelChunk` / `processExcelChunk` in
  `packages/sftp/src/Adaptor.js`),
* the Excel metadata scanner (`getExcelMetadata` / `processExcelMetadata` /
  `createMetadataResult` in the same file),
* the SFTP `connect` configuration handling,
* the temporary-file lifecycle of the chunk and metadata processors,
* the DHIS2 `upsertOrganisationUnitHierarchy` orchestrator,
* a spec-modelled Full-File Extractor (`getXLSX` / `extractAll`), whose
  implementation is not part of the source tree (only its tests are).

Rows produced by the streaming parser are abstracted by a type parameter `α`;
the extractor never inspects row contents, only their position in the stream.
-/

set_option autoImplicit false

universe u

/-! ## Row-Window Extractor (`processExcelChunk`, Adaptor.js lines 1035-1198)

The `data` handler keeps a running row counter, appends rows whose index lies
in `[startRow, endRow]` and stops the stream as soon as `chunkSize` rows were
collected.  `collectChunk` is that loop as a pure function over the stream's
row sequence. -/

/-- The row-selection loop of `processExcelChunk`: `currentRow` is the counter,
`acc` the `chunkData` accumulator; a row is appended when
`startRow ≤ currentRow ≤ endRow`, and the stream is destroyed early once
`chunkSize` rows were collected. -/
def collectChunk {α : Type u} (startRow endRow chunkSize : Nat) :
    Nat → List α → List α → List α
  | _, acc, [] => acc
  | currentRow, acc, row :: rest =>
    let acc' := if startRow ≤ currentRow ∧ currentRow ≤ endRow then acc ++ [row] else acc
    if chunkSize ≤ acc'.length then acc'
    else collectChunk startRow endRow chunkSize (currentRow + 1) acc' rest

/-- Rows returned by `processExcelChunk buffer filePath chunkIndex chunkSize`
when the temp-file stream yields `rows`:
`startRow = chunkIndex * chunkSize`, `endRow = startRow + chunkSize - 1`. -/
def processExcelChunk {α : Type u} (rows : List α) (chunkIndex chunkSize : Nat) : List α :=
  collectChunk (chunkIndex * chunkSize) (chunkIndex * chunkSize + chunkSize - 1) chunkSize
    0 [] rows

/-- `getExcelChunk` operation: validates the connection, the file path and the
chunk parameters before processing (Adaptor.js lines 807-884). -/
def getExcelChunk {α : Type u} (connected : Bool) (filePath : String)
    (rows : List α) (chunkIndex chunkSize : Nat) : Except String (List α) :=
  if ¬connected then
    .error "SFTP operation failed: not connected to server"
  else if filePath = "" then
    .error "SFTP getExcelChunk failed: filePath must be a non-empty string"
  else if chunkSize = 0 then
    .error "SFTP getExcelChunk failed: chunkSize must be a positive number"
  else
    .ok (processExcelChunk rows chunkIndex chunkSize)

/-- Inside the window the loop appends each incoming row until the chunk is
full; the invariant is `currentRow = startRow + acc.length`. -/
theorem collectChunk_inWindow {α : Type u} (s c : Nat) :
    ∀ (rows acc : List α) (cur : Nat), cur = s + acc.length → acc.length < c →
      collectChunk s (s + c - 1) c cur acc rows = acc ++ rows.take (c - acc.length) := by
  intro rows
  induction rows with
  | nil => intro acc cur _ _; simp [collectChunk]
  | cons row rest ih =>
    intro acc cur hcur hlen
    have hin : s ≤ cur ∧ cur ≤ s + c - 1 := by omega
    simp only [collectChunk, if_pos hin]
    by_cases hfull : c ≤ (acc ++ [row]).length
    · have hc : c - acc.length = 1 := by simp at hfull; omega
      simp only [if_pos hfull, hc, List.take_succ_cons, List.take_zero]
    · have hc : c - acc.length = (c - (acc ++ [row]).length) + 1 := by
        simp at hfull ⊢; omega
      simp only [if_neg hfull]
      rw [ih (acc ++ [row]) (cur + 1) (by simp; omega) (by simp at hfull ⊢; omega)]
      rw [hc, List.take_succ_cons, List.append_assoc]
      rfl

/-- Before the window the loop skips rows; starting at counter `cur ≤ startRow`
the collected rows are `(rows.drop (s - cur)).take c`. -/
theorem collectChunk_preWindow {α : Type u} (s c : Nat) (hc : 0 < c) :
    ∀ (rows : List α) (cur : Nat), cur ≤ s →
      collectChunk s (s + c - 1) c cur [] rows = (rows.drop (s - cur)).take c := by
  intro rows
  induction rows with
  | nil => intro cur _; simp [collectChunk]
  | cons row rest ih =>
    intro cur hcur
    rcases Nat.eq_or_lt_of_le hcur with heq | hlt
    · rw [heq, collectChunk_inWindow s c (row :: rest) [] s rfl (by simpa using hc)]
      simp
    · have hout : ¬(s ≤ cur ∧ cur ≤ s + c - 1) := by omega
      simp only [collectChunk, if_neg hout]
      have hnotfull : ¬ c ≤ ([] : List α).length := by simp; omega
      simp only [if_neg hnotfull]
      rw [ih (cur + 1) (by omega)]
      have hdrop : s - cur = (s - (cur + 1)) + 1 := by omega
      rw [hdrop, List.drop_succ_cons]

/-- The chunk processor returns exactly the window
`rows[chunkIndex*chunkSize .. chunkIndex*chunkSize + chunkSize - 1]`. -/
theorem processExcelChunk_eq_drop_take {α : Type u} (rows : List α)
    (chunkIndex chunkSize : Nat) (hc : 0 < chunkSize) :
    processExcelChunk rows chunkIndex chunkSize =
      (rows.drop (chunkIndex * chunkSize)).take chunkSize := by
  unfold processExcelChunk
  rw [collectChunk_preWindow (chunkIndex * chunkSize) chunkSize hc rows 0 (Nat.zero_le _)]
  simp

/-- C1: for all `chunkIndex ≥ 0` and `chunkSize > 0`, `getExcelChunk` succeeds
and returns exactly `min(chunkSize, max(0, totalRows - chunkIndex*chunkSize))`
rows; a window past the end of the file yields zero rows and is not an
error. -/
theorem getExcelChunk_row_count {α : Type u} (rows : List α) (filePath : String)
    (chunkIndex chunkSize : Nat) (hpath : filePath ≠ "") (hc : 0 < chunkSize) :
    ∃ out : List α, getExcelChunk true filePath rows chunkIndex chunkSize = .ok out ∧
      (out.length : ℤ) =
        min (chunkSize : ℤ) (max 0 ((rows.length : ℤ) - chunkIndex * chunkSize)) := by
  refine ⟨processExcelChunk rows chunkIndex chunkSize, ?_, ?_⟩
  · simp [getExcelChunk, hpath, Nat.pos_iff_ne_zero.mp hc]
  · rw [processExcelChunk_eq_drop_take rows chunkIndex chunkSize hc]
    rw [List.length_take, List.length_drop]
    rcases Nat.le_total (chunkIndex * chunkSize) rows.length with h | h
    · push_cast [Nat.sub_sub_self, min_def, max_def]
      omega
    · push_cast [min_def, max_def]
      omega

/-- Witness for C1 at a concrete input: a 5-row file, chunk index 1 of size 2. -/
theorem getExcelChunk_row_count_witness :
    ("f.xlsx" ≠ "" ∧ 0 < 2) ∧
      ∃ out : List Nat, getExcelChunk true "f.xlsx" [10, 11, 12, 13, 14] 1 2 = .ok out ∧
        (out.length : ℤ) = min (2 : ℤ) (max 0 ((5 : ℤ) - 1 * 2)) :=
  ⟨⟨by decide, by decide⟩,
    getExcelChunk_row_count [10, 11, 12, 13, 14] "f.xlsx" 1 2 (by decide) (by decide)⟩

/-! ## Dimension Scanner (`processExcelMetadata` / `createMetadataResult`,
Adaptor.js lines 890-1028 and 1204-1265)

The metadata pass counts every row of the stream (no early stop) and derives
the chunk layout with `totalChunks = Math.ceil(totalRows / chunkSize)`;
`(totalRows + chunkSize - 1) / chunkSize` renders that ceiling in `Nat`. -/

/-- One entry of the `chunks` array built by `createMetadataResult`. -/
structure ChunkInfo where
  chunkIndex : Nat
  chunkNumber : Nat
  startRow : Nat
  endRow : Nat
  rowCount : Nat
  deriving Repr, DecidableEq

/-- The metadata object assembled by `createMetadataResult`. -/
structure MetadataResult where
  totalRows : Nat
  chunkSize : Nat
  totalChunks : Nat
  chunks : List ChunkInfo
  deriving Repr, DecidableEq

/-- `createMetadataResult(totalRows, chunkSize, ...)`:
`totalChunks = Math.ceil(totalRows / chunkSize)` and one `ChunkInfo` per
chunk with `endRow = min(startRow + chunkSize - 1, totalRows - 1)`. -/
def createMetadataResult (totalRows chunkSize : Nat) : MetadataResult :=
  let totalChunks := (totalRows + chunkSize - 1) / chunkSize
  { totalRows := totalRows
    chunkSize := chunkSize
    totalChunks := totalChunks
    chunks := (List.range totalChunks).map fun i =>
      let startRow := i * chunkSize
      let endRow := min (startRow + chunkSize - 1) (totalRows - 1)
      { chunkIndex := i, chunkNumber := i + 1, startRow := startRow, endRow := endRow,
        rowCount := endRow - startRow + 1 } }

/-- `processExcelMetadata`: the stream handler increments `totalRows` once per
`data` event and builds the metadata result on `end`. -/
def processExcelMetadata {α : Type u} (rows : List α) (chunkSize : Nat) : MetadataResult :=
  createMetadataResult (rows.foldl (fun n _ => n + 1) 0) chunkSize

theorem foldl_count_eq_length {α : Type u} (rows : List α) :
    ∀ init : Nat, rows.foldl (fun n _ => n + 1) init = init + rows.length := by
  induction rows with
  | nil => intro init; simp
  | cons r rest ih => intro init; simp [List.foldl_cons, ih]; omega

/-- The `Nat` ceiling division used by the embedding satisfies the two
defining bounds of `⌈t / c⌉`. -/
theorem ceilChunks_bounds (t c : Nat) (hc : 0 < c) :
    t ≤ ((t + c - 1) / c) * c ∧ ((t + c - 1) / c) * c < t + c := by
  have h1 : ((t + c - 1) / c) * c ≤ t + c - 1 := Nat.div_mul_le_self _ _
  have h2 : t + c - 1 < ((t + c - 1) / c + 1) * c :=
    (Nat.div_lt_iff_lt_mul hc).mp (Nat.lt_succ_self _)
  rw [Nat.succ_mul] at h2
  generalize ((t + c - 1) / c) * c = m at h1 h2 ⊢
  omega

/-- C9: the Dimension Scanner's `totalRows` is the full row count of the
stream, and `totalChunks` equals `⌈totalRows / chunkSize⌉`. -/
theorem metadata_total_chunks_ceil {α : Type u} (rows : List α) (chunkSize : Nat)
    (hc : 0 < chunkSize) :
    (processExcelMetadata rows chunkSize).totalRows = rows.length ∧
      ((processExcelMetadata rows chunkSize).totalChunks : ℤ) =
        ⌈(rows.length : ℚ) / (chunkSize : ℚ)⌉ := by
  constructor
  · simp [processExcelMetadata, createMetadataResult, foldl_count_eq_length]
  · have htr : (processExcelMetadata rows chunkSize).totalChunks =
        (rows.length + chunkSize - 1) / chunkSize := by
      simp [processExcelMetadata, createMetadataResult, foldl_count_eq_length]
    rw [htr]
    obtain ⟨hA, hB⟩ := ceilChunks_bounds rows.length chunkSize hc
    set q := (rows.length + chunkSize - 1) / chunkSize with hqdef
    have hcQ : (0 : ℚ) < (chunkSize : ℚ) := by exact_mod_cast hc
    have hAq : (rows.length : ℚ) ≤ (q : ℚ) * (chunkSize : ℚ) := by exact_mod_cast hA
    have hBq : (q : ℚ) * (chunkSize : ℚ) < (rows.length : ℚ) + (chunkSize : ℚ) := by
      exact_mod_cast hB
    symm
    rw [Int.ceil_eq_iff]
    constructor
    · rw [lt_div_iff₀ hcQ]
      push_cast
      nlinarith [hBq]
    · rw [div_le_iff₀ hcQ]
      push_cast
      nlinarith [hAq]

/-- Witness for C9: a 3-row file with chunk size 2 has 2 chunks. -/
theorem metadata_total_chunks_ceil_witness :
    (0 < 2) ∧
      ((processExcelMetadata [10, 11, 12] 2).totalRows = ([10, 11, 12] : List Nat).length ∧
        ((processExcelMetadata [10, 11, 12] 2).totalChunks : ℤ) =
          ⌈(([10, 11, 12] : List Nat).length : ℚ) / ((2 : Nat) : ℚ)⌉) :=
  ⟨by decide, metadata_total_chunks_ceil [10, 11, 12] 2 (by decide)⟩

/-! ## Full-File Extractor (`getXLSX` / `extractAll`)

The implementation of `getXLSX` is not part of the source tree: only its
tests, docs and callers are.  The definitions below are therefore modelled
from the specification (§3, §4.3). -/

/-- Modelled from the spec: the `ExtractionResult` metadata of §3 for the
missing `getXLSX` implementation (`truncatedByTimeout?`, `errorNote?`). -/
structure ExtractionMetadata where
  truncatedByTimeout : Bool
  errorNote : Option String
  deriving Repr, DecidableEq

/-- Modelled from the spec: the `ExtractionResult` of §3 for the missing
`getXLSX` implementation, restricted to the fields the claims mention. -/
structure ExtractionResult (α : Type u) where
  rowsReturned : List α
  metadata : ExtractionMetadata
  deriving Repr, DecidableEq

/-- Modelled from the spec: §4.3 — the Full-File Extractor "retains every row
(up to `maxRows` if given)"; with no row cap the returned collection is the
whole row sequence. -/
def extractAll {α : Type u} (rows : List α) (maxRows : Option Nat) : List α :=
  match maxRows with
  | none => rows
  | some m => rows.take m

/-- Modelled from the spec: §6 — the value the streaming parser hands back may
be a proper `RowStream` (with the event-subscription capability), an awaitable
value, or a malformed value with neither shape. -/
inductive StreamShape (α : Type u) where
  | stream (rows : List α)
  | thenable (inner : StreamShape α)
  | malformed
  deriving Repr, DecidableEq

/-- Modelled from the spec: validation of the parser's return value — only a
proper stream exposes its row sequence. -/
def validStream? {α : Type u} : StreamShape α → Option (List α)
  | .stream rows => some rows
  | _ => none

/-- Modelled from the spec: §4.3 — `getXLSX` validates the parser's value; on
failure it attempts one fallback (await the value if it is awaitable and
retry validation) and, failing that, returns an empty, non-error result with
`metadata.errorNote` set instead of throwing. -/
def getXLSX {α : Type u} (sv : StreamShape α) (maxRows : Option Nat) :
    Except String (ExtractionResult α) :=
  match validStream? sv with
  | some rows =>
    .ok { rowsReturned := extractAll rows maxRows
          metadata := { truncatedByTimeout := false, errorNote := none } }
  | none =>
    match sv with
    | .thenable inner =>
      match validStream? inner with
      | some rows =>
        .ok { rowsReturned := extractAll rows maxRows
              metadata := { truncatedByTimeout := false, errorNote := none } }
      | none =>
        .ok { rowsReturned := []
              metadata := { truncatedByTimeout := false
                            errorNote := some "invalid stream shape returned by parser" } }
    | _ =>
      .ok { rowsReturned := []
            metadata := { truncatedByTimeout := false
                          errorNote := some "invalid stream shape returned by parser" } }

/-- C5: when the streaming parser yields a malformed stream-like value (not a
valid stream, and still not valid after the single await-and-retry fallback),
`getXLSX` returns an empty, non-error result with `metadata.errorNote` set
instead of throwing. -/
theorem getXLSX_invalid_stream_degrades {α : Type u} (sv : StreamShape α)
    (maxRows : Option Nat) (hinvalid : validStream? sv = none)
    (hfallback : ∀ inner, sv = .thenable inner → validStream? inner = none) :
    ∃ res : ExtractionResult α, getXLSX sv maxRows = .ok res ∧
      res.rowsReturned.length = 0 ∧ res.metadata.errorNote.isSome = true := by
  cases sv with
  | stream rows => simp [validStream?] at hinvalid
  | thenable inner =>
    have hin := hfallback inner rfl
    refine ⟨{ rowsReturned := []
              metadata := { truncatedByTimeout := false
                            errorNote := some "invalid stream shape returned by parser" } },
      ?_, rfl, rfl⟩
    simp only [getXLSX]
    rw [show validStream? inner.thenable = none from rfl, hin]
  | malformed => exact ⟨_, rfl, rfl, rfl⟩

/-- Witness for C5: a malformed parser value, no row cap. -/
theorem getXLSX_invalid_stream_degrades_witness :
    (validStream? (.malformed : StreamShape Nat) = none ∧
        ∀ inner, (.malformed : StreamShape Nat) = .thenable inner →
          validStream? inner = none) ∧
      ∃ res : ExtractionResult Nat, getXLSX (.malformed : StreamShape Nat) none = .ok res ∧
        res.rowsReturned.length = 0 ∧ res.metadata.errorNote.isSome = true :=
  ⟨⟨rfl, fun _ h => by cases h⟩,
    getXLSX_invalid_stream_degrades .malformed none rfl (fun _ h => by cases h)⟩

/-- Consecutive windows of width `N` cover the whole row sequence once
`K * N` reaches its length. -/
theorem chunks_cover {α : Type u} (N : Nat) :
    ∀ (K : Nat) (rows : List α), rows.length ≤ K * N →
      (List.range K).flatMap (fun i => (rows.drop (i * N)).take N) = rows := by
  intro K
  induction K with
  | zero =>
    intro rows hlen
    simp at hlen
    simp [hlen]
  | succ K ih =>
    intro rows hlen
    rw [List.range_succ_eq_map, List.flatMap_cons, List.flatMap_map]
    have hshift : ∀ i : Nat,
        (rows.drop (Nat.succ i * N)).take N = ((rows.drop N).drop (i * N)).take N := by
      intro i
      rw [List.drop_drop]
      congr 1
      rw [Nat.succ_mul, Nat.add_comm]
    have hrec : (rows.drop N).length ≤ K * N := by
      have hsm : (K + 1) * N = K * N + N := add_one_mul K N
      have hlen2 : rows.length ≤ K * N + N := le_trans hlen hsm.le
      rw [List.length_drop]
      exact le_trans (Nat.sub_le_sub_right hlen2 N) (le_of_eq (Nat.add_sub_cancel _ _))
    simp only [Function.comp, hshift]
    rw [ih (rows.drop N) hrec]
    simp

/-- C4: concatenating `getExcelChunk(path, 0, N) … getExcelChunk(path, K-1, N)`
for the `K = totalChunks` chunks reported by the metadata scan reproduces the
same row sequence, in the same order, as the Full-File Extractor with no row
cap. -/
theorem chunked_extraction_agrees_with_full {α : Type u} (rows : List α) (N : Nat)
    (hN : 0 < N) :
    (List.range (processExcelMetadata rows N).totalChunks).flatMap
        (fun i => processExcelChunk rows i N) = extractAll rows none := by
  have hchunk : ∀ i : Nat, processExcelChunk rows i N = (rows.drop (i * N)).take N :=
    fun i => processExcelChunk_eq_drop_take rows i N hN
  simp only [hchunk, extractAll]
  have htc : (processExcelMetadata rows N).totalChunks = (rows.length + N - 1) / N := by
    simp [processExcelMetadata, createMetadataResult, foldl_count_eq_length]
  rw [htc]
  exact chunks_cover N _ rows (ceilChunks_bounds rows.length N hN).1

/-- Witness for C4: a 5-row file split into chunks of 2. -/
theorem chunked_extraction_agrees_with_full_witness :
    (0 < 2) ∧
      (List.range (processExcelMetadata [10, 11, 12, 13, 14] 2).totalChunks).flatMap
          (fun i => processExcelChunk ([10, 11, 12, 13, 14] : List Nat) i 2) =
        extractAll [10, 11, 12, 13, 14] none :=
  ⟨by decide, chunked_extraction_agrees_with_full [10, 11, 12, 13, 14] 2 (by decide)⟩

/-! ## Temporary-file lifecycle of the processors (C7)

`processExcelChunk` calls `cleanupTempFile` on every terminal transition of
its stream (early stop, `end`, `error`, `close`, and the catch around stream
setup); `processExcelMetadata` deletes its temp file in a `finally` block.
Deletion failures are caught and logged, never rethrown.  The model below
replays an event script against those handlers, tracking how often deletion
was attempted and whether it succeeded (`unlinkOk`). -/

instance exceptDecEq {ε α : Type u} [DecidableEq ε] [DecidableEq α] :
    DecidableEq (Except ε α) := fun x y =>
  match x, y with
  | .ok a, .ok b =>
    if h : a = b then isTrue (by rw [h]) else isFalse (by intro hh; cases hh; exact h rfl)
  | .error a, .error b =>
    if h : a = b then isTrue (by rw [h]) else isFalse (by intro hh; cases hh; exact h rfl)
  | .ok _, .error _ => isFalse (by intro hh; cases hh)
  | .error _, .ok _ => isFalse (by intro hh; cases hh)

/-- Events delivered by the `xlstream` row stream. -/
inductive XEvent (α : Type u) where
  | data (row : α)
  | streamEnd
  | streamError (msg : String)
  | streamClose
  deriving Repr, DecidableEq

/-- How a processor call ends: a synchronous throw before the promise is
created, a promise that never settles, or a resolution/rejection. -/
inductive RunOutcome (ρ : Type u) where
  | thrown (msg : String)
  | pending
  | resolved (value : ρ)
  | rejected (msg : String)
  deriving Repr, DecidableEq

/-- The ways a call can go before any stream event: `writeFileSync` throws
(no temp file yet), `getXlsxStream` throws (temp file exists), or streaming
starts and delivers `events`. -/
inductive SetupScript (α : Type u) where
  | writeFails (msg : String)
  | streamInitFails (msg : String)
  | streams (events : List (XEvent α))
  deriving Repr, DecidableEq

/-- Mutable state of `processExcelChunk`'s promise executor. -/
structure ChunkStreamState (α : Type u) where
  currentRow : Nat
  chunkData : List α
  finished : Bool
  settled : Option (Except String (List α))
  cleanupAttempts : Nat
  tempDeleted : Bool
  deriving Repr, DecidableEq

/-- Outcome and temp-file bookkeeping of one processor call. -/
structure RunResult (ρ : Type u) where
  outcome : RunOutcome ρ
  tempCreated : Bool
  cleanupAttempts : Nat
  tempDeleted : Bool
  deriving Repr, DecidableEq

def settledToOutcome {ρ : Type u} : Option (Except String ρ) → RunOutcome ρ
  | none => .pending
  | some (.ok v) => .resolved v
  | some (.error msg) => .rejected msg

/-- One stream event against `processExcelChunk`'s handlers (Adaptor.js lines
1108-1176).  Every terminal transition calls `cleanupTempFile`, whose `unlink`
may fail (`unlinkOk = false`): the failure is only logged, so control flow
does not depend on it. -/
def chunkStep {α : Type u} (unlinkOk : Bool) (chunkIndex chunkSize : Nat)
    (s : ChunkStreamState α) (e : XEvent α) : ChunkStreamState α :=
  match e with
  | .data row =>
    if s.finished then s
    else
      let startRow := chunkIndex * chunkSize
      let endRow := startRow + chunkSize - 1
      let chunkData :=
        if startRow ≤ s.currentRow ∧ s.currentRow ≤ endRow then s.chunkData ++ [row]
        else s.chunkData
      if chunkSize ≤ chunkData.length then
        { currentRow := s.currentRow + 1
          chunkData := chunkData
          finished := true
          settled := some (.ok chunkData)
          cleanupAttempts := s.cleanupAttempts + 1
          tempDeleted := s.tempDeleted || unlinkOk }
      else
        { s with
          currentRow := s.currentRow + 1
          chunkData := chunkData }
  | .streamEnd =>
    if s.finished then s
    else
      { s with
        finished := true
        settled := some (.ok s.chunkData)
        cleanupAttempts := s.cleanupAttempts + 1
        tempDeleted := s.tempDeleted || unlinkOk }
  | .streamError msg =>
    if s.finished then s
    else
      { s with
        finished := true
        settled := some (.error
          ("Excel chunk processing failed for chunk " ++ toString chunkIndex ++ ": " ++ msg))
        cleanupAttempts := s.cleanupAttempts + 1
        tempDeleted := s.tempDeleted || unlinkOk }
  | .streamClose =>
    if s.finished then s
    else
      { s with
        finished := true
        settled := some (.ok s.chunkData)
        cleanupAttempts := s.cleanupAttempts + 1
        tempDeleted := s.tempDeleted || unlinkOk }

def chunkStreamInit {α : Type u} : ChunkStreamState α :=
  { currentRow := 0
    chunkData := []
    finished := false
    settled := none
    cleanupAttempts := 0
    tempDeleted := false }

/-- A whole `processExcelChunk` call: `writeFileSync` failure throws with no
temp file; a `getXlsxStream` failure is caught in the executor, which cleans
up and rejects; otherwise the stream events drive the handlers. -/
def processExcelChunkRun {α : Type u} (unlinkOk : Bool) (chunkIndex chunkSize : Nat) :
    SetupScript α → RunResult (List α)
  | .writeFails msg => ⟨.thrown msg, false, 0, false⟩
  | .streamInitFails msg => ⟨.rejected msg, true, 1, unlinkOk⟩
  | .streams events =>
    let s := events.foldl (chunkStep unlinkOk chunkIndex chunkSize) chunkStreamInit
    ⟨settledToOutcome s.settled, true, s.cleanupAttempts, s.tempDeleted⟩

/-- Mutable state of `processExcelMetadata`'s promise executor. -/
structure MetaStreamState where
  totalRows : Nat
  finished : Bool
  settled : Option (Except String MetadataResult)
  deriving Repr, DecidableEq

/-- One stream event against `processExcelMetadata`'s handlers (Adaptor.js
lines 955-1007): count rows, resolve on `end`/`close`, reject on `error`.
Cleanup is not done here but in the function's `finally` block. -/
def metadataStep {α : Type u} (chunkSize : Nat) (s : MetaStreamState) (e : XEvent α) :
    MetaStreamState :=
  match e with
  | .data _ => if s.finished then s else { s with totalRows := s.totalRows + 1 }
  | .streamEnd =>
    if s.finished then s
    else
      { s with
        finished := true
        settled := some (.ok (createMetadataResult s.totalRows chunkSize)) }
  | .streamError msg =>
    if s.finished then s
    else
      { s with
        finished := true
        settled := some (.error ("Excel metadata processing failed: " ++ msg)) }
  | .streamClose =>
    if s.finished then s
    else
      { s with
        finished := true
        settled := some (.ok (createMetadataResult s.totalRows chunkSize)) }

/-- A whole `processExcelMetadata` call: the `finally` block attempts the
deletion exactly once whenever the temp file was created (Adaptor.js lines
1018-1028), whatever the stream later does. -/
def processExcelMetadataRun {α : Type u} (unlinkOk : Bool) (chunkSize : Nat) :
    SetupScript α → RunResult MetadataResult
  | .writeFails msg => ⟨.thrown msg, false, 0, false⟩
  | .streamInitFails msg => ⟨.rejected msg, true, 1, unlinkOk⟩
  | .streams events =>
    let s := (events.foldl (metadataStep chunkSize) ⟨0, false, none⟩ : MetaStreamState)
    ⟨settledToOutcome s.settled, true, 1, unlinkOk⟩

/-- The executor settles at most once: before the first terminal event the
promise is pending with no cleanup; afterwards it is settled with exactly one
cleanup attempt. -/
theorem chunkStep_settle_inv {α : Type u} (unlinkOk : Bool) (ci cs : Nat)
    (s : ChunkStreamState α) (e : XEvent α)
    (h : (s.finished = false ∧ s.settled = none ∧ s.cleanupAttempts = 0) ∨
      (s.finished = true ∧ s.settled.isSome = true ∧ s.cleanupAttempts = 1)) :
    (((chunkStep unlinkOk ci cs s e).finished = false ∧
        (chunkStep unlinkOk ci cs s e).settled = none ∧
        (chunkStep unlinkOk ci cs s e).cleanupAttempts = 0) ∨
      ((chunkStep unlinkOk ci cs s e).finished = true ∧
        (chunkStep unlinkOk ci cs s e).settled.isSome = true ∧
        (chunkStep unlinkOk ci cs s e).cleanupAttempts = 1)) := by
  obtain ⟨cr, cd, fin, st, ca, td⟩ := s
  rcases h with ⟨hf, hs, hc⟩ | ⟨hf, hs, hc⟩
  · simp only at hf hs hc
    subst hf; subst hs; subst hc
    cases e with
    | data row =>
      simp only [chunkStep, Bool.false_eq_true, if_false]
      by_cases hfull :
          cs ≤ (if ci * cs ≤ cr ∧ cr ≤ ci * cs + cs - 1 then cd ++ [row] else cd).length
      · right; simp [hfull]
      · left; simp [hfull]
    | streamEnd => right; simp [chunkStep]
    | streamError msg => right; simp [chunkStep]
    | streamClose => right; simp [chunkStep]
  · simp only at hf hs hc
    subst hf; subst hc
    cases e <;> (right; simp [chunkStep, hs])

theorem chunkFold_settle_inv {α : Type u} (unlinkOk : Bool) (ci cs : Nat) :
    ∀ (events : List (XEvent α)) (s : ChunkStreamState α),
      ((s.finished = false ∧ s.settled = none ∧ s.cleanupAttempts = 0) ∨
        (s.finished = true ∧ s.settled.isSome = true ∧ s.cleanupAttempts = 1)) →
      (((events.foldl (chunkStep unlinkOk ci cs) s).finished = false ∧
          (events.foldl (chunkStep unlinkOk ci cs) s).settled = none ∧
          (events.foldl (chunkStep unlinkOk ci cs) s).cleanupAttempts = 0) ∨
        ((events.foldl (chunkStep unlinkOk ci cs) s).finished = true ∧
          (events.foldl (chunkStep unlinkOk ci cs) s).settled.isSome = true ∧
          (events.foldl (chunkStep unlinkOk ci cs) s).cleanupAttempts = 1)) := by
  intro events
  induction events with
  | nil => intro s h; simpa using h
  | cons e rest ih =>
    intro s h
    rw [List.foldl_cons]
    exact ih _ (chunkStep_settle_inv unlinkOk ci cs s e h)

/-- Deletion success is invisible to the executor: dropping the `tempDeleted`
flag commutes with every step. -/
def eraseTemp {α : Type u} (s : ChunkStreamState α) : ChunkStreamState α :=
  { s with tempDeleted := false }

theorem chunkStep_eraseTemp {α : Type u} (unlinkOk : Bool) (ci cs : Nat)
    (s : ChunkStreamState α) (e : XEvent α) :
    eraseTemp (chunkStep unlinkOk ci cs s e) = chunkStep false ci cs (eraseTemp s) e := by
  obtain ⟨cr, cd, fin, st, ca, td⟩ := s
  cases e with
  | data row =>
    cases fin with
    | true => rfl
    | false =>
      simp only [chunkStep, eraseTemp, Bool.false_eq_true, if_false]
      by_cases hfull :
          cs ≤ (if ci * cs ≤ cr ∧ cr ≤ ci * cs + cs - 1 then cd ++ [row] else cd).length
      · simp [hfull]
      · simp [hfull]
  | streamEnd => cases fin <;> rfl
  | streamError msg => cases fin <;> rfl
  | streamClose => cases fin <;> rfl

theorem chunkFold_eraseTemp {α : Type u} (unlinkOk : Bool) (ci cs : Nat) :
    ∀ (events : List (XEvent α)) (s : ChunkStreamState α),
      eraseTemp (events.foldl (chunkStep unlinkOk ci cs) s) =
        events.foldl (chunkStep false ci cs) (eraseTemp s) := by
  intro events
  induction events with
  | nil => intro s; rfl
  | cons e rest ih =>
    intro s
    rw [List.foldl_cons, List.foldl_cons, ih, chunkStep_eraseTemp]

/-- C7: for every way a chunk or metadata call can run, the temporary file, once
created, has its deletion attempted exactly once on every exit path (normal
stream end, early stop, stream error, stream close, failure before streaming
starts), and a deletion failure (`unlinkOk = false`) changes neither the
outcome nor the bookkeeping — it is logged, never thrown. -/
theorem temp_file_cleanup_on_all_exits {α : Type u} (unlinkOk : Bool) (ci cs mcs : Nat)
    (script : SetupScript α) :
    ((processExcelChunkRun unlinkOk ci cs script).tempCreated = true →
      (processExcelChunkRun unlinkOk ci cs script).outcome ≠ RunOutcome.pending →
      (processExcelChunkRun unlinkOk ci cs script).cleanupAttempts = 1) ∧
    ((processExcelChunkRun unlinkOk ci cs script).outcome =
        (processExcelChunkRun false ci cs script).outcome ∧
      (processExcelChunkRun unlinkOk ci cs script).cleanupAttempts =
        (processExcelChunkRun false ci cs script).cleanupAttempts) ∧
    ((processExcelMetadataRun unlinkOk mcs script).tempCreated = true →
      (processExcelMetadataRun unlinkOk mcs script).cleanupAttempts = 1) ∧
    (processExcelMetadataRun unlinkOk mcs script).outcome =
      (processExcelMetadataRun false mcs script).outcome := by
  have herase : ∀ events : List (XEvent α),
      (events.foldl (chunkStep false ci cs) chunkStreamInit).settled =
          (events.foldl (chunkStep unlinkOk ci cs) chunkStreamInit).settled ∧
        (events.foldl (chunkStep false ci cs) chunkStreamInit).cleanupAttempts =
          (events.foldl (chunkStep unlinkOk ci cs) chunkStreamInit).cleanupAttempts := by
    intro events
    have he := chunkFold_eraseTemp unlinkOk ci cs events chunkStreamInit
    rw [show eraseTemp (chunkStreamInit : ChunkStreamState α) = chunkStreamInit from rfl] at he
    rw [← he]
    exact ⟨rfl, rfl⟩
  refine ⟨?_, ⟨?_, ?_⟩, ?_, ?_⟩
  · cases script with
    | writeFails msg => intro h; simp [processExcelChunkRun] at h
    | streamInitFails msg => intro _ _; rfl
    | streams events =>
      intro _ hout
      have hinv := chunkFold_settle_inv unlinkOk ci cs events chunkStreamInit
        (Or.inl ⟨rfl, rfl, rfl⟩)
      rcases hinv with ⟨hf, hsettled, hca⟩ | ⟨hf, hsettled, hca⟩
      · exact absurd (by simp [processExcelChunkRun, hsettled, settledToOutcome]) hout
      · simpa [processExcelChunkRun] using hca
  · cases script with
    | writeFails msg => rfl
    | streamInitFails msg => rfl
    | streams events => simp [processExcelChunkRun, (herase events).1]
  · cases script with
    | writeFails msg => rfl
    | streamInitFails msg => rfl
    | streams events => simpa [processExcelChunkRun] using (herase events).2.symm
  · cases script with
    | writeFails msg => intro h; simp [processExcelMetadataRun] at h
    | streamInitFails msg => intro _; rfl
    | streams events => intro _; rfl
  · cases script <;> rfl

/-- Witness for C7: a run that streams one row and ends normally cleans the
temp file up exactly once. -/
theorem temp_file_cleanup_on_all_exits_witness :
    ((processExcelChunkRun true 0 1
          (SetupScript.streams [XEvent.data (7 : Nat), XEvent.streamEnd])).tempCreated = true ∧
      (processExcelChunkRun true 0 1
          (SetupScript.streams [XEvent.data (7 : Nat), XEvent.streamEnd])).outcome ≠
        RunOutcome.pending) ∧
    (processExcelChunkRun true 0 1
        (SetupScript.streams [XEvent.data (7 : Nat), XEvent.streamEnd])).cleanupAttempts = 1 :=
  ⟨⟨by decide, by decide⟩,
    (temp_file_cleanup_on_all_exits true 0 1 2
        (SetupScript.streams [XEvent.data (7 : Nat), XEvent.streamEnd])).1
      (by decide) (by decide)⟩

/-! ## Transport Session: `connect` (Adaptor.js lines 131-204)

`connect` strips a `sftp://` or `ftp://` scheme prefix from the host, rejects
a missing (or scheme-only, hence empty) host before any transport call, and
wraps every transport rejection in one enhanced connection-failure error. -/

/-- JavaScript truthiness of an optional string (`undefined` and `""` are
falsy). -/
def jsTruthy : Option String → Bool
  | none => false
  | some s => !(s == "")

/-- `cleanedConfig.host.replace(/^(sftp|ftp):\/\//, '')`, spelled out on the
character list so that it evaluates by kernel reduction. -/
def stripScheme (h : String) : String :=
  if "sftp://".data.isPrefixOf h.data then String.mk (h.data.drop 7)
  else if "ftp://".data.isPrefixOf h.data then String.mk (h.data.drop 6)
  else h

/-- The configuration fields `connect` reads. -/
structure SftpConfig where
  host : Option String
  port : Option Nat
  username : Option String
  deriving Repr, DecidableEq

/-- The `connectionInfo` assembled for logging and error messages. -/
structure ConnInfo where
  host : String
  port : Nat
  username : String
  deriving Repr, DecidableEq

/-- What the underlying `ssh2-sftp-client` transport does with a connection
attempt (DNS failure, refused connection, timeout and authentication failure
all surface here as a rejection message). -/
inductive TransportResult where
  | ok
  | err (msg : String)
  deriving Repr, DecidableEq

/-- `cleanedConfig.port || 22` (`0` is falsy in JavaScript). -/
def portOrDefault : Option Nat → Nat
  | none => 22
  | some 0 => 22
  | some p => p

/-- `cleanedConfig.username || 'anonymous'`. -/
def usernameOrDefault : Option String → String
  | none => "anonymous"
  | some s => if s = "" then "anonymous" else s

/-- `connect`: clean the host, fail before any transport call when it is
missing or empty, otherwise attempt the transport connection and wrap a
rejection into the enhanced connection-failure error. -/
def connect (transport : ConnInfo → TransportResult) (cfg : SftpConfig) :
    Except String ConnInfo :=
  let cleanedHost := cfg.host.map stripScheme
  if jsTruthy cleanedHost then
    let info : ConnInfo :=
      { host := cleanedHost.getD ""
        port := portOrDefault cfg.port
        username := usernameOrDefault cfg.username }
    match transport info with
    | .ok => .ok info
    | .err msg =>
      .error ("SFTP connection failed" ++ " to " ++ info.host ++ ":" ++
        toString info.port ++ ": " ++ msg)
  else
    .error ("SFTP connection failed" ++ ": host is required in configuration")

/-- C8: with a missing host — or a host that a stripped `scheme://` prefix
leaves empty — `connect` fails identically for every transport, i.e. before
any transport I/O, with the host-required connection error; and every failure
of `connect`, host-related or transport-related, is the one connection-failure
error kind (its message extends `"SFTP connection failed"`). -/
theorem connect_connection_error (cfg : SftpConfig) :
    (jsTruthy (cfg.host.map stripScheme) = false →
      ∀ transport : ConnInfo → TransportResult,
        connect transport cfg =
          .error ("SFTP connection failed" ++ ": host is required in configuration")) ∧
    (∀ (transport : ConnInfo → TransportResult) (s : String),
      connect transport cfg = .error s →
        ∃ rest, s = "SFTP connection failed" ++ rest) := by
  constructor
  · intro hfalsy transport
    simp [connect, hfalsy]
  · intro transport s herr
    unfold connect at herr
    by_cases htruthy : jsTruthy (cfg.host.map stripScheme) = true
    · simp only [htruthy, if_true] at herr
      rcases htr : transport
          { host := (cfg.host.map stripScheme).getD ""
            port := portOrDefault cfg.port
            username := usernameOrDefault cfg.username } with _ | msg
      · rw [htr] at herr; cases herr
      · rw [htr] at herr
        refine ⟨" to " ++ (cfg.host.map stripScheme).getD "" ++ ":" ++
          toString (portOrDefault cfg.port) ++ ": " ++ msg, ?_⟩
        cases herr
        simp only [String.append_assoc]
    · simp only [Bool.not_eq_true] at htruthy
      simp only [htruthy, Bool.false_eq_true, if_false] at herr
      cases herr
      exact ⟨": host is required in configuration", rfl⟩

/-- Witness for C8: a host of `"sftp://"` strips to the empty string, so the
host check fails before any transport call. -/
theorem connect_connection_error_witness :
    (jsTruthy ((some "sftp://" : Option String).map stripScheme) = false) ∧
      ∀ transport : ConnInfo → TransportResult,
        connect transport { host := some "sftp://", port := none, username := none } =
          .error ("SFTP connection failed" ++ ": host is required in configuration") :=
  ⟨by decide,
    (connect_connection_error { host := some "sftp://", port := none, username := none }).1
      (by decide)⟩

/-! ## Hierarchical Upsert Orchestrator
(`upsertOrganisationUnitHierarchy`, DHIS2 `Adaptor.js`)

The orchestrator groups nodes by `level`, walks levels `1..maxLevels`, and for
each node resolves `orgUnit.parent` against the `mappings` object, calls the
idempotent `upsert` operation, and records either the deep-copied response or
an error entry in `responses`.  The external upsert operation is modelled by
an environment `env` mapping the payload to its outcome. -/

/-- A hierarchy node as consumed by the orchestrator. -/
structure OrgUnit where
  level : Nat
  name : String
  shortName : Option String
  code : String
  parent : Option String
  deriving Repr, DecidableEq

/-- The payload built for one node (`name`, `shortName`, `code`,
`openingDate`, plus the resolved parent id when the node has a parent). -/
structure OrgUnitPayload where
  name : String
  shortName : Option String
  code : String
  openingDate : String
  parent : Option String
  deriving Repr, DecidableEq

/-- The deep-copied `state.data` after a successful upsert, restricted to the
only field the orchestrator reads: `response?.uid`. -/
structure UpsertResponse where
  uid? : Option String
  deriving Repr, DecidableEq

/-- What the target system's `upsert` operation does with one payload. -/
inductive UpsertOutcome where
  | throws (msg : String)
  | resolves (resp : UpsertResponse)
  deriving Repr, DecidableEq

/-- One entry of `responses`: a deep-copied response, or the error record
`{ error: message, orgUnit: name }`. -/
inductive ResponseEntry where
  | ok (resp : UpsertResponse)
  | err (message orgUnit : String)
  deriving Repr, DecidableEq

/-- `mappings[key]` on a JavaScript object. -/
def lookupMapping : List (String × String) → String → Option String
  | [], _ => none
  | (k, v) :: rest, key => if k = key then some v else lookupMapping rest key

/-- `mappings[key] = value` on a JavaScript object: replace the value in
place, or append the new key at the end. -/
def setMapping : List (String × String) → String → String → List (String × String)
  | [], key, v => [(key, v)]
  | (k, w) :: rest, key, v =>
    if k = key then (key, v) :: rest else (k, w) :: setMapping rest key v

/-- The orchestrator's accumulated `{ mappings, responses }` report. -/
structure UpsertReport where
  mappings : List (String × String)
  responses : List ResponseEntry
  deriving Repr, DecidableEq

/-- Resolving `orgUnit.parent`: a falsy `parent` field means no parent lookup
at all; a truthy one must resolve to a truthy `mappings[parent]`, otherwise
the node is skipped (`continue`) with only a console log. -/
def resolveParent (m : List (String × String)) (parent : Option String) :
    Except Unit (Option String) :=
  if jsTruthy parent then
    match lookupMapping m (parent.getD "") with
    | none => .error ()
    | some pid => if pid = "" then .error () else .ok (some pid)
  else .ok none

/-- The payload literal built per node, with
`openingDate: openingDate || '2024-01-01'`. -/
def mkPayload (openingDate : Option String) (u : OrgUnit) (pid : Option String) :
    OrgUnitPayload :=
  { name := u.name
    shortName := u.shortName
    code := u.code
    openingDate := if jsTruthy openingDate then openingDate.getD "" else "2024-01-01"
    parent := pid }

/-- Processing of one node: skip on unresolved parent; on a thrown upsert
append `{ error, orgUnit }` and continue; on a resolved upsert append the
response and record `mappings[name] = uid` only when `response?.uid` is
truthy. -/
def processOrgUnit (env : OrgUnitPayload → UpsertOutcome) (openingDate : Option String)
    (r : UpsertReport) (u : OrgUnit) : UpsertReport :=
  match resolveParent r.mappings u.parent with
  | .error _ => r
  | .ok pid =>
    match env (mkPayload openingDate u pid) with
    | .throws msg => { r with responses := r.responses ++ [.err msg u.name] }
    | .resolves resp =>
      if jsTruthy resp.uid? then
        { mappings := setMapping r.mappings u.name (resp.uid?.getD "")
          responses := r.responses ++ [.ok resp] }
      else { r with responses := r.responses ++ [.ok resp] }

/-- `upsertOrganisationUnitHierarchy`: require `maxLevels`, group the nodes by
level, then process levels `1..maxLevels` in order, each level's nodes in
input order. -/
def upsertOrganisationUnitHierarchy (env : OrgUnitPayload → UpsertOutcome)
    (openingDate : Option String) (maxLevels : Nat)
    (orgUnitStructures : List OrgUnit) : Except String UpsertReport :=
  if maxLevels = 0 then .error "maxLevels option must be provided."
  else
    .ok ((List.range' 1 maxLevels).foldl
      (fun r level =>
        (orgUnitStructures.filter (fun u => u.level == level)).foldl
          (processOrgUnit env openingDate) r)
      { mappings := [], responses := [] })

theorem lookupMapping_setMapping_self (m : List (String × String)) (key v : String) :
    lookupMapping (setMapping m key v) key = some v := by
  induction m with
  | nil => simp [setMapping, lookupMapping]
  | cons p rest ih =>
    obtain ⟨k, w⟩ := p
    by_cases hk : k = key
    · simp [setMapping, lookupMapping, hk]
    · simp [setMapping, lookupMapping, hk, ih]

theorem lookupMapping_setMapping_isSome (m : List (String × String)) (key v k : String)
    (h : (lookupMapping m k).isSome = true) :
    (lookupMapping (setMapping m key v) k).isSome = true := by
  induction m with
  | nil => simp [lookupMapping] at h
  | cons p rest ih =>
    obtain ⟨k', w⟩ := p
    by_cases hkk : k' = k
    · subst hkk
      by_cases hk : k' = key
      · subst hk
        simp [setMapping, lookupMapping]
      · simp [setMapping, lookupMapping, hk]
    · have h' : (lookupMapping rest k).isSome = true := by
        simpa [lookupMapping, hkk] using h
      by_cases hk : k' = key
      · subst hk
        simp [setMapping, lookupMapping, hkk, h']
      · simp [setMapping, lookupMapping, hk, hkk, ih h']

theorem processOrgUnit_keys_mono (env : OrgUnitPayload → UpsertOutcome)
    (openingDate : Option String) (r : UpsertReport) (u : OrgUnit) (k : String)
    (h : (lookupMapping r.mappings k).isSome = true) :
    (lookupMapping (processOrgUnit env openingDate r u).mappings k).isSome = true := by
  unfold processOrgUnit
  cases hres : resolveParent r.mappings u.parent with
  | error e => simp only [hres]; exact h
  | ok pid =>
    cases henv : env (mkPayload openingDate u pid) with
    | throws msg => simp only [hres, henv]; exact h
    | resolves resp =>
      by_cases huid : jsTruthy resp.uid? = true
      · simp only [hres, henv, huid, if_true]
        exact lookupMapping_setMapping_isSome r.mappings u.name _ k h
      · simp only [Bool.not_eq_true] at huid
        simp only [hres, henv, huid, Bool.false_eq_true, if_false]
        exact h

theorem foldl_processOrgUnit_keys_mono (env : OrgUnitPayload → UpsertOutcome)
    (openingDate : Option String) :
    ∀ (units : List OrgUnit) (r : UpsertReport) (k : String),
      (lookupMapping r.mappings k).isSome = true →
      (lookupMapping ((units.foldl (processOrgUnit env openingDate) r).mappings) k).isSome =
        true := by
  intro units
  induction units with
  | nil => intro r k h; simpa using h
  | cons u rest ih =>
    intro r k h
    rw [List.foldl_cons]
    exact ih _ k (processOrgUnit_keys_mono env openingDate r u k h)

/-- C3 (amended): throughout a run the key set of `mappings` only ever grows
— a recorded name is never dropped by later processing, across any remaining
levels — but the recorded identifier CAN change: when a node with an already
mapped name upserts successfully with a truthy uid, `mappings[name]` becomes
that latest uid (last success wins, not first). -/
theorem mappings_keys_grow_last_success_wins :
    (∀ (env : OrgUnitPayload → UpsertOutcome) (openingDate : Option String)
      (levels : List Nat) (units : List OrgUnit) (r : UpsertReport) (k : String),
      (lookupMapping r.mappings k).isSome = true →
      (lookupMapping ((levels.foldl
          (fun acc level =>
            (units.filter (fun u => u.level == level)).foldl
              (processOrgUnit env openingDate) acc)
          r).mappings) k).isSome = true) ∧
    (∀ (env : OrgUnitPayload → UpsertOutcome) (openingDate : Option String)
      (r : UpsertReport) (u : OrgUnit) (pid : Option String) (resp : UpsertResponse),
      resolveParent r.mappings u.parent = .ok pid →
      env (mkPayload openingDate u pid) = .resolves resp →
      jsTruthy resp.uid? = true →
      lookupMapping (processOrgUnit env openingDate r u).mappings u.name =
        some (resp.uid?.getD "")) := by
  constructor
  · intro env openingDate levels
    induction levels with
    | nil => intro units r k h; simpa using h
    | cons level rest ih =>
      intro units r k h
      rw [List.foldl_cons]
      exact ih units _ k (foldl_processOrgUnit_keys_mono env openingDate _ r k h)
  · intro env openingDate r u pid resp hres henv huid
    unfold processOrgUnit
    simp only [hres, henv, huid, if_true]
    exact lookupMapping_setMapping_self r.mappings u.name _

/-- Witness for the amended C3: a node whose name is already mapped to
`"id1"` succeeds with uid `"id2"`; the key survives and the value is
overwritten. -/
theorem mappings_keys_grow_last_success_wins_witness :
    ((lookupMapping [("A", "id1")] "A").isSome = true ∧
      (lookupMapping ((([2] : List Nat).foldl
          (fun acc level =>
            (([] : List OrgUnit).filter (fun u => u.level == level)).foldl
              (processOrgUnit (fun _ => .resolves ⟨some "id2"⟩) none) acc)
          ⟨[("A", "id1")], []⟩).mappings) "A").isSome = true) ∧
    (resolveParent [("A", "id1")] none = .ok none ∧
      (fun _ : OrgUnitPayload => UpsertOutcome.resolves ⟨some "id2"⟩)
          (mkPayload none ⟨1, "A", none, "A2", none⟩ none) = .resolves ⟨some "id2"⟩ ∧
      jsTruthy (some "id2") = true ∧
      lookupMapping (processOrgUnit (fun _ => .resolves ⟨some "id2"⟩) none
          ⟨[("A", "id1")], []⟩ ⟨1, "A", none, "A2", none⟩).mappings "A" =
        some ((some "id2").getD "")) :=
  ⟨⟨by decide,
      mappings_keys_grow_last_success_wins.1 (fun _ => .resolves ⟨some "id2"⟩) none [2] []
        ⟨[("A", "id1")], []⟩ "A" (by decide)⟩,
    ⟨by decide, by decide, by decide,
      mappings_keys_grow_last_success_wins.2 (fun _ => .resolves ⟨some "id2"⟩) none
        ⟨[("A", "id1")], []⟩ ⟨1, "A", none, "A2", none⟩ none ⟨some "id2"⟩
        (by decide) (by decide) (by decide)⟩⟩

/-- C3 counterexample: two same-named nodes at level 1 both upsert
successfully with distinct uids; the final `mappings["A"]` is the SECOND uid,
so the first success does not remain. -/
theorem mappings_first_wins_counterexample :
    upsertOrganisationUnitHierarchy
        (fun p => if p.code = "A1" then .resolves ⟨some "id1"⟩ else .resolves ⟨some "id2"⟩)
        none 1
        [⟨1, "A", none, "A1", none⟩, ⟨1, "A", none, "A2", none⟩] =
      .ok { mappings := [("A", "id2")]
            responses := [.ok ⟨some "id1"⟩, .ok ⟨some "id2"⟩] } ∧
    lookupMapping [("A", "id2")] "A" ≠ some "id1" :=
  ⟨by decide, by decide⟩

/-- C2 (amended): a node whose parent reference cannot be resolved in
`mappings` is skipped silently: the upsert operation is not called, nothing is
appended to `responses` (the skip is only logged to the console), and
`mappings` is unchanged; in particular the run over
`[{level:2, name:"Orphan", code:"O", parent:"Ghost"}]` with `maxLevels = 2`
ends with `responses = []` and `mappings = {}` for every upsert
environment. -/
theorem parent_missing_skips_silently :
    (∀ (env : OrgUnitPayload → UpsertOutcome) (openingDate : Option String)
      (r : UpsertReport) (u : OrgUnit),
      resolveParent r.mappings u.parent = .error () →
      processOrgUnit env openingDate r u = r) ∧
    (∀ env : OrgUnitPayload → UpsertOutcome,
      upsertOrganisationUnitHierarchy env none 2
          [⟨2, "Orphan", none, "O", some "Ghost"⟩] =
        .ok { mappings := [], responses := [] }) := by
  constructor
  · intro env openingDate r u hres
    unfold processOrgUnit
    simp only [hres]
  · intro env
    rfl

/-- Witness for the amended C2: the lookup of `"Ghost"` in empty mappings
fails, and processing the node leaves the empty report untouched. -/
theorem parent_missing_skips_silently_witness :
    (resolveParent ([] : List (String × String)) (some "Ghost") = .error ()) ∧
      processOrgUnit (fun _ => .resolves ⟨some "uid1"⟩) none ⟨[], []⟩
          ⟨2, "Orphan", none, "O", some "Ghost"⟩ = ⟨[], []⟩ :=
  ⟨by decide,
    parent_missing_skips_silently.1 (fun _ => .resolves ⟨some "uid1"⟩) none ⟨[], []⟩
      ⟨2, "Orphan", none, "O", some "Ghost"⟩ (by decide)⟩

/-- C2 counterexample: for the claimed scenario input the run records NO
entry at all in `responses` — not the claimed single error entry referencing
`"Orphan"`. -/
theorem parent_missing_error_entry_counterexample :
    upsertOrganisationUnitHierarchy (fun _ => .resolves ⟨some "uid1"⟩) none 2
        [⟨2, "Orphan", none, "O", some "Ghost"⟩] =
      .ok { mappings := [], responses := [] } ∧
    ({ mappings := [], responses := [] } : UpsertReport).responses.length ≠ 1 :=
  ⟨by decide, by decide⟩

/-- C6: a node whose upsert call fails contributes exactly one error entry
carrying its name and the error message, leaves `mappings` untouched, and the
fold simply continues with the remaining nodes from that state — one node's
failure never aborts the level or the run. -/
theorem node_failure_recorded_and_run_continues
    (env : OrgUnitPayload → UpsertOutcome) (openingDate : Option String)
    (r : UpsertReport) (u : OrgUnit) (pid : Option String) (msg : String)
    (vs : List OrgUnit)
    (hres : resolveParent r.mappings u.parent = .ok pid)
    (henv : env (mkPayload openingDate u pid) = .throws msg) :
    processOrgUnit env openingDate r u =
      { r with responses := r.responses ++ [.err msg u.name] } ∧
    (u :: vs).foldl (processOrgUnit env openingDate) r =
      vs.foldl (processOrgUnit env openingDate)
        { r with responses := r.responses ++ [.err msg u.name] } := by
  have hstep : processOrgUnit env openingDate r u =
      { r with responses := r.responses ++ [.err msg u.name] } := by
    unfold processOrgUnit
    simp only [hres, henv]
  exact ⟨hstep, by rw [List.foldl_cons, hstep]⟩

/-- Witness for C6: a failing upsert of `"North"` followed by one more node. -/
theorem node_failure_recorded_and_run_continues_witness :
    (resolveParent ([] : List (String × String)) none = .ok none ∧
      (fun _ : OrgUnitPayload => UpsertOutcome.throws "boom")
          (mkPayload none ⟨1, "North", none, "N", none⟩ none) = .throws "boom") ∧
    processOrgUnit (fun _ => .throws "boom") none ⟨[], []⟩ ⟨1, "North", none, "N", none⟩ =
      { mappings := [], responses := [.err "boom" "North"] } :=
  ⟨⟨by decide, by decide⟩,
    (node_failure_recorded_and_run_continues (fun _ => .throws "boom") none ⟨[], []⟩
        ⟨1, "North", none, "N", none⟩ none "boom" [⟨1, "South", none, "S", none⟩]
        (by decide) (by decide)).1⟩

/-- C10: when the upsert resolves but the response carries no truthy
`response.uid`, the response is still appended to `responses` while
`mappings` stays unchanged — so any later node naming this node as parent is
skipped exactly as if the node had failed. -/
theorem missing_uid_no_mapping_entry
    (env : OrgUnitPayload → UpsertOutcome) (openingDate : Option String)
    (r : UpsertReport) (u : OrgUnit) (pid : Option String) (resp : UpsertResponse)
    (hres : resolveParent r.mappings u.parent = .ok pid)
    (henv : env (mkPayload openingDate u pid) = .resolves resp)
    (huid : jsTruthy resp.uid? = false) :
    processOrgUnit env openingDate r u =
      { r with responses := r.responses ++ [.ok resp] } ∧
    ∀ v : OrgUnit, v.parent = some u.name → u.name ≠ "" →
      lookupMapping r.mappings u.name = none →
      processOrgUnit env openingDate (processOrgUnit env openingDate r u) v =
        processOrgUnit env openingDate r u := by
  have hstep : processOrgUnit env openingDate r u =
      { r with responses := r.responses ++ [.ok resp] } := by
    unfold processOrgUnit
    simp only [hres, henv, huid, Bool.false_eq_true, if_false]
  refine ⟨hstep, ?_⟩
  intro v hv hname hmiss
  have hskip : resolveParent (processOrgUnit env openingDate r u).mappings v.parent =
      .error () := by
    rw [hstep]
    simp only [hv, resolveParent, jsTruthy]
    simp [hname, hmiss]
  conv in processOrgUnit env openingDate (processOrgUnit env openingDate r u) v =>
    rw [processOrgUnit]
  simp only [hskip]

/-- Witness for C10: `"North"` resolves without a uid; `"Child"` pointing at
it is then skipped. -/
theorem missing_uid_no_mapping_entry_witness :
    (resolveParent ([] : List (String × String)) none = .ok none ∧
      (fun _ : OrgUnitPayload => UpsertOutcome.resolves ⟨none⟩)
          (mkPayload none ⟨1, "North", none, "N", none⟩ none) = .resolves ⟨none⟩ ∧
      jsTruthy (none : Option String) = false) ∧
    processOrgUnit (fun _ => .resolves ⟨none⟩) none ⟨[], []⟩ ⟨1, "North", none, "N", none⟩ =
      { mappings := [], responses := [.ok ⟨none⟩] } :=
  ⟨⟨by decide, by decide, by decide⟩,
    (missing_uid_no_mapping_entry (fun _ => .resolves ⟨none⟩) none ⟨[], []⟩
        ⟨1, "North", none, "N", none⟩ none ⟨none⟩ (by decide) (by decide) (by decide)).1⟩
